import Mathlib

/-!
Verification of the admission-validation layer of a workflow-orchestration
server (`src/prefect/server/schemas/actions.py`): template-variable checking
for base job templates, override validation against a variable schema,
parameter validation, and legacy schedule normalization.

JSON documents are modelled by the inductive `Json`; Python `dict.get`,
truthiness, `in`, and `list.remove` are modelled explicitly.  Python
exceptions are modelled by `PyError`: `valueError` keeps its message,
`validationError` models `jsonschema.ValidationError`, and `runtimeError`
stands for any other runtime exception (KeyError, AttributeError, TypeError).
-/

/-- A JSON document: the payloads, templates and schemas the validators read. -/
inductive Json where
  | null : Json
  | bool (b : Bool) : Json
  | num (n : Int) : Json
  | str (s : String) : Json
  | arr (xs : List Json) : Json
  | obj (kvs : List (String × Json)) : Json

/-- The outcomes a validator can raise. -/
inductive PyError where
  | valueError (msg : String) : PyError
  | validationError (msg : String) : PyError
  | runtimeError : PyError
deriving DecidableEq

mutual

/-- Structural equality of JSON values (Python `==` on parsed JSON). -/
def jsonBeq : Json → Json → Bool
  | .null, .null => true
  | .bool a, .bool b => a == b
  | .num a, .num b => a == b
  | .str a, .str b => a == b
  | .arr xs, .arr ys => jsonListBeq xs ys
  | .obj xs, .obj ys => jsonObjBeq xs ys
  | _, _ => false

/-- Elementwise equality of JSON arrays. -/
def jsonListBeq : List Json → List Json → Bool
  | [], [] => true
  | x :: xs, y :: ys => jsonBeq x y && jsonListBeq xs ys
  | _, _ => false

/-- Entrywise equality of JSON objects (order-sensitive, as Python dicts
compare equal only with equal key sets; call sites only compare with `{}`). -/
def jsonObjBeq : List (String × Json) → List (String × Json) → Bool
  | [], [] => true
  | (k1, v1) :: xs, (k2, v2) :: ys => k1 == k2 && jsonBeq v1 v2 && jsonObjBeq xs ys
  | _, _ => false

end

/-- First value bound to a key in an association list (Python dicts have
unique keys; lookup takes the first match). -/
def lookupKey : List (String × Json) → String → Option Json
  | [], _ => none
  | (k, v) :: rest, key => if k = key then some v else lookupKey rest key

/-- Python `d.get(key)`: `None` when the key is absent or bound to `None`
(JSON null); only defined on objects (the call sites receive dicts). -/
def Json.getOpt (j : Json) (key : String) : Option Json :=
  match j with
  | .obj kvs =>
    match lookupKey kvs key with
    | some .null => none
    | some v => some v
    | none => none
  | _ => none

/-- Python `d[key]`: KeyError when absent, TypeError when the receiver is not
a dict — both folded into `runtimeError`. -/
def Json.getItem (j : Json) (key : String) : Except PyError Json :=
  match j with
  | .obj kvs =>
    match lookupKey kvs key with
    | some v => .ok v
    | none => .error .runtimeError
  | _ => .error .runtimeError

/-- Python truthiness of a JSON value. -/
def Json.truthy : Json → Bool
  | .null => false
  | .bool b => b
  | .num n => decide (n ≠ 0)
  | .str s => decide (s ≠ "")
  | .arr [] => false
  | .arr (_ :: _) => true
  | .obj [] => false
  | .obj (_ :: _) => true

/-- Truthiness of a `dict.get` result (`None` is falsy). -/
def truthyOpt : Option Json → Bool
  | none => false
  | some j => j.truthy

/-- Replace the value bound to a key (models in-place assignment into the
private deep copy of a schema). -/
def setKeyList : List (String × Json) → String → Json → List (String × Json)
  | [], _, _ => []
  | (k, v) :: rest, key, nv =>
    if k = key then (key, nv) :: rest else (k, v) :: setKeyList rest key nv

/-- `Json.setKey` on an object replaces the binding of `key`. -/
def Json.setKey (j : Json) (key : String) (nv : Json) : Json :=
  match j with
  | .obj kvs => .obj (setKeyList kvs key nv)
  | _ => j

/-! ## Placeholder extraction

`validate_base_job_template` serializes each job-configuration value with
`json.dumps` and runs `find_placeholders` (repository code outside `src/`)
over the result.  The composite is modelled from the spec: every string in
the document (leaves and, because the serialized form contains them, map
keys of nested objects) is scanned for `\x7b\x7b name \x7d\x7d` tokens and
the surrounding whitespace is trimmed from the name. -/

/-- The literal left curly brace character. -/
def lbrace : Char := '\x7b'

/-- The literal right curly brace character. -/
def rbrace : Char := '\x7d'

/-- Split at the first closing double brace: `some (inner, rest)` when the
input is `inner ++ \x7d\x7d ++ rest` for brace-free-shortest `inner`. -/
def splitClose : List Char → Option (List Char × List Char)
  | c1 :: c2 :: rest =>
    if c1 = rbrace ∧ c2 = rbrace then some ([], rest)
    else
      match splitClose (c2 :: rest) with
      | some (pre, post) => some (c1 :: pre, post)
      | none => none
  | _ => none

/-- Whitespace as trimmed around a placeholder name. -/
def isSpaceChar (c : Char) : Bool :=
  c = ' ' || c = '\t' || c = '\n' || c = '\r'

/-- Drop whitespace from both ends of a character list. -/
def trimChars (cs : List Char) : List Char :=
  ((cs.dropWhile isSpaceChar).reverse.dropWhile isSpaceChar).reverse

/-- Scan characters for double-curly-brace tokens; `fuel` bounds recursion
(callers pass the length, which always suffices since each step consumes at
least one character). -/
def scanAux : Nat → List Char → List String
  | 0, _ => []
  | _ + 1, [] => []
  | _ + 1, [_] => []
  | fuel + 1, c1 :: c2 :: rest =>
    if c1 = lbrace ∧ c2 = lbrace then
      match splitClose rest with
      | some (inner, post) => String.mk (trimChars inner) :: scanAux fuel post
      | none => scanAux fuel (c2 :: rest)
    else scanAux fuel (c2 :: rest)

/-- Modelled from the spec: the placeholder grammar of `find_placeholders` —
all `\x7b\x7b name \x7d\x7d` tokens of a single string, names
whitespace-trimmed, in order of appearance. -/
def scanString (s : String) : List String :=
  scanAux s.length s.data

mutual

/-- Modelled from the spec: all placeholder names appearing anywhere in a
serialized document, nested maps and lists included. -/
def extractFromJson : Json → List String
  | .null => []
  | .bool _ => []
  | .num _ => []
  | .str s => scanString s
  | .arr xs => extractFromArr xs
  | .obj kvs => extractFromObj kvs

/-- Placeholders of the elements of an array, in order. -/
def extractFromArr : List Json → List String
  | [] => []
  | x :: xs => extractFromJson x ++ extractFromArr xs

/-- Placeholders of the keys and values of an object, in order. -/
def extractFromObj : List (String × Json) → List String
  | [] => []
  | (k, v) :: rest => scanString k ++ extractFromJson v ++ extractFromObj rest

end

/-- Keep the first occurrence of each string, dropping later duplicates
(models accumulating names into a Python `set`, with set iteration order
modelled as first-discovery order). -/
def dedupAux (seen : List String) : List String → List String
  | [] => []
  | x :: xs => if x ∈ seen then dedupAux seen xs else x :: dedupAux (x :: seen) xs

/-- The distinct placeholder names, first occurrences first. -/
def dedupFirst (l : List String) : List String := dedupAux [] l

/-- The set of placeholder names referenced by a job configuration: the
union over its values (top-level keys are not serialized by the source's
per-value `json.dumps` loop). -/
def extractTemplateVariables (jckvs : List (String × Json)) : List String :=
  dedupFirst ((jckvs.map (fun kv => extractFromJson kv.2)).flatten)

/-! ## `validate_base_job_template` (source lines 683-711) -/

/-- Python `' ,'.join(names)` — note the source's separator is space-comma. -/
def joinNames : List String → String
  | [] => ""
  | [x] => x
  | x :: y :: rest => x ++ " ," ++ joinNames (y :: rest)

/-- The ValueError message raised when `job_configuration` or `variables`
is missing or falsy. -/
def missingKeysMessage : String :=
  "The `base_job_template` must contain both a `job_configuration` key and a `variables` key."

/-- The ValueError message raised when the template references undeclared
variables; carries the joined missing names. -/
def undeclaredMessage (missing : List String) : String :=
  "The variables specified in the job configuration template must be present as properties in the variables schema. Your job configuration uses the following undeclared variable(s): "
    ++ joinNames missing ++ "."

/-- The names referenced by the template but not declared in `properties`,
in first-discovery order (the source subtracts Python sets; set iteration is
modelled as first-discovery order). -/
def missingVariables (referenced provided : List String) : List String :=
  referenced.filter (fun n => decide (n ∉ provided))

/-- `validate_base_job_template` from the source: accept `{}` unchanged;
require truthy `job_configuration` and `variables`; extract the placeholder
names of every job-configuration value; require them all to be keys of
`variables["properties"]`, else raise a ValueError carrying the missing
names. -/
def validate_base_job_template (v : Json) : Except PyError Json :=
  if jsonBeq v (Json.obj []) then .ok v
  else
    let job_config := v.getOpt "job_configuration"
    let variablesDoc := v.getOpt "variables"
    if truthyOpt job_config && truthyOpt variablesDoc then
      match job_config with
      | some (.obj jckvs) =>
        let template_variables := extractTemplateVariables jckvs
        match variablesDoc with
        | some vars =>
          match vars.getItem "properties" with
          | .ok (.obj props) =>
            let provided := props.map Prod.fst
            if template_variables.all (fun n => decide (n ∈ provided)) then .ok v
            else
              .error (.valueError
                (undeclaredMessage (missingVariables template_variables provided)))
          | .ok _ => .error .runtimeError
          | .error e => .error e
        | none => .error .runtimeError
      | some _ => .error .runtimeError
      | none => .error .runtimeError
    else .error (.valueError missingKeysMessage)

/-! ## `check_valid_configuration` (source lines 207-224 and 285-303)

Both deployment actions deep-copy `base_job_template["variables"]`, drop
from the copy's `required` list every name whose `properties` fragment has a
`default`, and validate `infra_overrides` against the adjusted copy with
`jsonschema.validate`.  The deep copy is modelled by value-passing: each
function returns its result paired with the (unchanged) caller document. -/

/-- Is `needle` a prefix of `hay`? -/
def charsPrefix : List Char → List Char → Bool
  | [], _ => true
  | _ :: _, [] => false
  | a :: as, b :: bs => a == b && charsPrefix as bs

/-- Does `needle` occur contiguously inside `hay`? -/
def charsContain (needle : List Char) : List Char → Bool
  | [] => needle.isEmpty
  | c :: rest => charsPrefix needle (c :: rest) || charsContain needle rest

/-- Python `key in j`: key membership for dicts, element membership for
lists, substring test for strings, TypeError otherwise. -/
def pyIn (key : String) (j : Json) : Except PyError Bool :=
  match j with
  | .obj kvs => .ok (kvs.any (fun kv => decide (kv.1 = key)))
  | .arr xs => .ok (xs.any (jsonBeq (Json.str key)))
  | .str s => .ok (charsContain key.data s.data)
  | _ => .error .runtimeError

/-- Python `list.remove`-style erasure of the first occurrence. -/
def jsonErase (x : Json) : List Json → List Json
  | [] => []
  | y :: ys => if jsonBeq y x then ys else y :: jsonErase x ys

/-- One iteration of the source loop `for k, v in properties.items()`:
`if "default" in v and k in required: required.remove(k)`.  `remove` on a
non-list raises (AttributeError), modelled as `runtimeError`. -/
def adjustStep (req : Json) (k : String) (frag : Json) : Except PyError Json := do
  let hasDef ← pyIn "default" frag
  if hasDef then
    let mem ← pyIn k req
    if mem then
      match req with
      | .arr l => pure (.arr (jsonErase (Json.str k) l))
      | _ => .error .runtimeError
    else pure req
  else pure req

/-- The whole properties loop, threading the mutated `required` value. -/
def adjustLoop (req : Json) : List (String × Json) → Except PyError Json
  | [] => pure req
  | (k, frag) :: rest => do
    let req2 ← adjustStep req k frag
    adjustLoop req2 rest

/-- The required-relaxation block of `check_valid_configuration`: when both
`required` and `properties` are non-`None`, run the loop on the private copy
and store the mutated `required` back (in Python the list is mutated in
place inside the copy); `properties.items()` on a non-dict raises. -/
def adjustRequired (vs : Json) : Except PyError Json :=
  match vs.getOpt "required", vs.getOpt "properties" with
  | some req, some props =>
    match props with
    | .obj propkvs => (adjustLoop req propkvs).map (fun nr => vs.setKey "required" nr)
    | _ => .error .runtimeError
  | _, _ => .ok vs

/-! The structural JSON-Schema validator is the external `jsonschema`
library, treated by the spec as a collaborator. -/

/-- Modelled from the spec: JSON-Schema primitive type names. -/
def typeMatches (t : String) (j : Json) : Bool :=
  match j with
  | .null => t = "null"
  | .bool _ => t = "boolean"
  | .num _ => t = "integer" || t = "number"
  | .str _ => t = "string"
  | .arr _ => t = "array"
  | .obj _ => t = "object"

/-- Modelled from the spec: the `type` keyword check of the external
structural validator. -/
def checkType (inst : Json) (skvs : List (String × Json)) : Except PyError Unit :=
  match lookupKey skvs "type" with
  | some (.str t) =>
    if typeMatches t inst then .ok ()
    else .error (.validationError ("instance is not of type " ++ t))
  | _ => .ok ()

/-- Modelled from the spec: the `enum` keyword check of the external
structural validator. -/
def checkEnum (inst : Json) (skvs : List (String × Json)) : Except PyError Unit :=
  match lookupKey skvs "enum" with
  | some (.arr es) =>
    if es.any (jsonBeq inst) then .ok ()
    else .error (.validationError "instance is not one of the enumerated values")
  | _ => .ok ()

/-- Modelled from the spec: the `required` keyword — every listed name must
be a key of the object instance; first missing name is the violation. -/
def requiredLoop (m : List (String × Json)) : List Json → Except PyError Unit
  | [] => .ok ()
  | .str r :: rest =>
    if (lookupKey m r).isSome then requiredLoop m rest
    else .error (.validationError (r ++ " is a required property"))
  | _ :: rest => requiredLoop m rest

/-- Modelled from the spec: `required` applies only to object instances. -/
def checkRequired (inst : Json) (skvs : List (String × Json)) : Except PyError Unit :=
  match inst, lookupKey skvs "required" with
  | .obj m, some (.arr reqs) => requiredLoop m reqs
  | _, _ => .ok ()

/-- Modelled from the spec: per-property `type`/`enum` checks for the keys
the object instance actually supplies. -/
def propsLoop (m : List (String × Json)) : List (String × Json) → Except PyError Unit
  | [] => .ok ()
  | (k, frag) :: rest =>
    match lookupKey m k, frag with
    | some v, .obj fragkvs => do
      checkType v fragkvs
      checkEnum v fragkvs
      propsLoop m rest
    | _, _ => propsLoop m rest

/-- Modelled from the spec: `properties` applies only to object instances. -/
def checkProperties (inst : Json) (skvs : List (String × Json)) : Except PyError Unit :=
  match inst, lookupKey skvs "properties" with
  | .obj m, some (.obj props) => propsLoop m props
  | _, _ => .ok ()

/-- Modelled from the spec: `jsonschema.validate` — the external structural
JSON-Schema validator (type checks, enum checks, unknown-required-field
checks), surfacing the first violation and stopping there. -/
def jsonschemaValidate (inst schema : Json) : Except PyError Unit :=
  match schema with
  | .obj skvs => do
    checkType inst skvs
    checkEnum inst skvs
    checkRequired inst skvs
    checkProperties inst skvs
  | _ => .error .runtimeError

/-- Result of `DeploymentCreate.check_valid_configuration`: deep-copy the
`variables` document, relax `required`, validate the overrides — all inside
one `if variables_schema is not None`. -/
def checkCreateResult (infra_overrides b : Json) : Except PyError Unit :=
  match b.getOpt "variables" with
  | none => .ok ()
  | some vs =>
    match vs with
    | .obj _ => do
      let vs2 ← adjustRequired vs
      jsonschemaValidate infra_overrides vs2
    | _ => .error .runtimeError

/-- `DeploymentCreate.check_valid_configuration`, paired with the
caller's `base_job_template` after the call (unchanged: the source mutates
only a deep copy). -/
def checkValidConfigurationCreate (infra_overrides b : Json) :
    Except PyError Unit × Json :=
  (checkCreateResult infra_overrides b, b)

/-- Result of `DeploymentUpdate.check_valid_configuration`: same body split
into two separate `if variables_schema is not None` blocks — the first
relaxes `required` on the copy, the second validates. -/
def checkUpdateResult (infra_overrides b : Json) : Except PyError Unit :=
  let step1 : Except PyError (Option Json) :=
    match b.getOpt "variables" with
    | none => .ok none
    | some vs =>
      match vs with
      | .obj _ => (adjustRequired vs).map some
      | _ => .error .runtimeError
  match step1 with
  | .error e => .error e
  | .ok none => .ok ()
  | .ok (some vs2) => jsonschemaValidate infra_overrides vs2

/-- `DeploymentUpdate.check_valid_configuration`, paired with the caller's
`base_job_template` after the call. -/
def checkValidConfigurationUpdate (infra_overrides b : Json) :
    Except PyError Unit × Json :=
  (checkUpdateResult infra_overrides b, b)

/-! ## Parameter validation and schedule normalization

`validate_parameters_conform_to_schema` and `set_deployment_schedules` are
repository code outside `src/` (only their call sites are in
`actions.py`); they are modelled from the spec. -/

/-- Modelled from the spec: `validateParameters` — fail-open when the
parameter schema is `null`/absent or lacks a usable shape (no `properties`
key); otherwise validate the parameters with the same structural rules as
override validation. -/
def validateParameters (parameters : Json) (schema : Option Json) :
    Except PyError Unit :=
  match schema with
  | none => .ok ()
  | some s =>
    match s.getOpt "properties" with
    | none => .ok ()
    | some _ => jsonschemaValidate parameters s

/-- One activation-flag-plus-schedule pair; the schedule specification type
is opaque to the normalizer. -/
structure ScheduleEntry (α : Type) where
  active : Bool
  schedule : α
deriving DecidableEq

/-- The schedule-bearing fields of a deployment payload: the legacy single
`schedule` and `is_schedule_active`, and the canonical `schedules` list. -/
structure SchedulePayload (α : Type) where
  schedule : Option α
  is_schedule_active : Bool
  schedules : List (ScheduleEntry α)
deriving DecidableEq

/-- Modelled from the spec: `normalizeSchedules` / `set_deployment_schedules`
— a non-empty `schedules` list is authoritative; an empty list with a legacy
`schedule` present is migrated to the sole entry
`(active := is_schedule_active, schedule := schedule)`; with both
absent/empty the list stays empty; the legacy `schedule` field is cleared in
the normalized payload. -/
def normalizeSchedules {α : Type} (p : SchedulePayload α) : SchedulePayload α :=
  match p.schedules with
  | [] =>
    match p.schedule with
    | some s =>
      { schedule := none, is_schedule_active := p.is_schedule_active,
        schedules := [⟨p.is_schedule_active, s⟩] }
    | none =>
      { schedule := none, is_schedule_active := p.is_schedule_active,
        schedules := [] }
  | ss =>
    { schedule := none, is_schedule_active := p.is_schedule_active, schedules := ss }

/-! ## Helper lemmas -/

theorem jsonBeq_eq_empty_obj (v : Json) (h : jsonBeq v (Json.obj []) = true) :
    v = Json.obj [] := by
  cases v with
  | obj kvs =>
    cases kvs with
    | nil => rfl
    | cons p rest => cases p; simp [jsonBeq, jsonObjBeq] at h
  | null => simp [jsonBeq] at h
  | bool b => simp [jsonBeq] at h
  | num n => simp [jsonBeq] at h
  | str s => simp [jsonBeq] at h
  | arr xs => simp [jsonBeq] at h

theorem getOpt_some_ne_empty (v : Json) (key : String) (x : Json)
    (h : v.getOpt key = some x) : jsonBeq v (Json.obj []) = false := by
  cases hb : jsonBeq v (Json.obj []) with
  | false => rfl
  | true =>
    have hv := jsonBeq_eq_empty_obj v hb
    subst hv
    simp [Json.getOpt, lookupKey] at h

/-! ## Claim theorems: frame, equivalence, fail-open, schedules -/

/-- C9: `validate_base_job_template` accepts the empty dict unconditionally —
`{}` is returned unchanged, with neither the shape check nor the placeholder
check applied, although it lacks both otherwise-mandatory keys. -/
theorem validate_base_job_template_accepts_empty :
    validate_base_job_template (Json.obj []) = .ok (Json.obj []) := rfl

/-- C2: `check_valid_configuration` never mutates the caller's
`base_job_template`: the document after the call (second component) is the
input, in particular its `variables` schema, and a second call with a
different override map gives the same result as if the first call had never
happened. -/
theorem check_valid_configuration_no_mutation (o1 o2 b : Json) :
    (checkValidConfigurationCreate o1 b).2 = b ∧
    (checkValidConfigurationCreate o1 b).2.getOpt "variables" = b.getOpt "variables" ∧
    (checkValidConfigurationCreate o2 (checkValidConfigurationCreate o1 b).2).1
      = (checkValidConfigurationCreate o2 b).1 ∧
    (checkValidConfigurationUpdate o1 b).2 = b :=
  ⟨rfl, rfl, rfl, rfl⟩

/-- C10: `DeploymentCreate.check_valid_configuration` and
`DeploymentUpdate.check_valid_configuration` are behaviorally equivalent:
on every `base_job_template` and every override value they return the same
outcome (success or the same violation) and both leave the input unchanged. -/
theorem create_update_check_equivalent (o b : Json) :
    checkValidConfigurationCreate o b = checkValidConfigurationUpdate o b := by
  unfold checkValidConfigurationCreate checkValidConfigurationUpdate
  have : checkCreateResult o b = checkUpdateResult o b := by
    unfold checkCreateResult checkUpdateResult
    cases hb : b.getOpt "variables" with
    | none => rfl
    | some vs =>
      cases vs with
      | obj kvs =>
        cases ha : adjustRequired (Json.obj kvs) with
        | error e => simp [ha, Except.map, bind, Except.bind]
        | ok v2 => simp [ha, Except.map, bind, Except.bind]
      | null => rfl
      | bool c => rfl
      | num n => rfl
      | str s => rfl
      | arr xs => rfl
  rw [this]

/-- C4: `validateParameters` is fail-open — with a `null`/absent schema or a
schema lacking a usable `properties` key it succeeds for every parameters
map, never rejecting on an absent or malformed schema. -/
theorem validateParameters_fail_open (parameters s : Json)
    (h : s.getOpt "properties" = none) :
    validateParameters parameters (some s) = .ok () ∧
    validateParameters parameters none = .ok () := by
  constructor
  · simp [validateParameters, h]
  · rfl

/-- Witness for C4 at a malformed (no `properties`) schema and a nonempty
parameters map. -/
theorem validateParameters_fail_open_witness :
    validateParameters (Json.obj [("x", Json.num 1)])
      (some (Json.obj [("title", Json.str "broken")])) = .ok () ∧
    validateParameters (Json.obj [("x", Json.num 1)]) none = .ok () :=
  validateParameters_fail_open (Json.obj [("x", Json.num 1)])
    (Json.obj [("title", Json.str "broken")]) rfl

/-- C5: legacy schedule migration — with an empty `schedules` list, a present
legacy `schedule` becomes the sole entry `(active := is_schedule_active)`,
and with both absent/empty the normalized list is empty. -/
theorem normalizeSchedules_legacy_migration {α : Type} (p : SchedulePayload α)
    (h : p.schedules = []) :
    normalizeSchedules p =
      { schedule := none, is_schedule_active := p.is_schedule_active,
        schedules :=
          match p.schedule with
          | some s => [⟨p.is_schedule_active, s⟩]
          | none => [] } := by
  cases p with
  | mk sch act schs =>
    subst h
    cases sch <;> rfl

/-- Witness for C5: both the migration case and the both-empty case at
concrete payloads. -/
theorem normalizeSchedules_legacy_migration_witness :
    normalizeSchedules (α := Nat) ⟨some 5, false, []⟩ = ⟨none, false, [⟨false, 5⟩]⟩ ∧
    normalizeSchedules (α := Nat) ⟨none, true, []⟩ = ⟨none, true, []⟩ :=
  ⟨normalizeSchedules_legacy_migration ⟨some 5, false, []⟩ rfl,
   normalizeSchedules_legacy_migration ⟨none, true, []⟩ rfl⟩

/-- C6: `normalizeSchedules` is idempotent — normalizing an
already-normalized payload changes nothing. -/
theorem normalizeSchedules_idempotent {α : Type} (p : SchedulePayload α) :
    normalizeSchedules (normalizeSchedules p) = normalizeSchedules p := by
  cases p with
  | mk sch act schs => cases schs <;> cases sch <;> rfl

/-! ## Claim theorems: empty-schema edge cases of `validate_base_job_template` -/

/-- C8 counterexample: a base job template whose `job_configuration` and
`variables` are both explicitly present but empty is rejected — the claim's
"empty template against an empty schema succeeds" fails on the code, which
accepts only the wholly-empty `\x7b\x7d` document. -/
theorem empty_fields_template_rejected_cex :
    validate_base_job_template
      (Json.obj [("job_configuration", Json.obj []), ("variables", Json.obj [])])
      = .error (.valueError missingKeysMessage) := rfl

/-- C8 (amended): a truthy (non-empty) `job_configuration` with an empty or
absent `variables` schema is always rejected with the shape-check
ValueError, and the only success with an empty template is the wholly-empty
base job template, which is accepted unchanged. -/
theorem empty_schema_rejection (v : Json)
    (h1 : truthyOpt (v.getOpt "job_configuration") = true)
    (h2 : truthyOpt (v.getOpt "variables") = false) :
    validate_base_job_template v = .error (.valueError missingKeysMessage) ∧
    validate_base_job_template (Json.obj []) = .ok (Json.obj []) := by
  refine ⟨?_, rfl⟩
  have hne : jsonBeq v (Json.obj []) = false := by
    cases hjc : v.getOpt "job_configuration" with
    | none => rw [hjc] at h1; simp [truthyOpt] at h1
    | some x => exact getOpt_some_ne_empty v "job_configuration" x hjc
  simp [validate_base_job_template, hne, h1, h2]

/-- Witness for the amended C8: a non-empty template with the `variables`
key absent is rejected. -/
theorem empty_schema_rejection_witness :
    validate_base_job_template
      (Json.obj [("job_configuration", Json.obj [("cmd", Json.str "run")])])
      = .error (.valueError missingKeysMessage) ∧
    validate_base_job_template (Json.obj []) = .ok (Json.obj []) :=
  empty_schema_rejection
    (Json.obj [("job_configuration", Json.obj [("cmd", Json.str "run")])]) rfl rfl

theorem validate_base_job_template_unfold (v vars : Json)
    (jckvs props : List (String × Json))
    (hjc : v.getOpt "job_configuration" = some (Json.obj jckvs))
    (hjct : (Json.obj jckvs).truthy = true)
    (hv : v.getOpt "variables" = some vars)
    (hvt : vars.truthy = true)
    (hprops : vars.getItem "properties" = .ok (Json.obj props)) :
    validate_base_job_template v =
      (if (extractTemplateVariables jckvs).all
          (fun n => decide (n ∈ props.map Prod.fst)) then .ok v
       else .error (.valueError (undeclaredMessage
          (missingVariables (extractTemplateVariables jckvs) (props.map Prod.fst))))) := by
  have hne := getOpt_some_ne_empty v "job_configuration" _ hjc
  simp [validate_base_job_template, hne, hjc, hv, hjct, hvt, truthyOpt, hprops]

/-! ## Claim theorems: the template-variable check -/

/-- C1: for a base job template whose `job_configuration` and `variables`
are both present (truthy, with the schema carrying its `properties` object),
`validate_base_job_template` succeeds iff every placeholder name extracted
from the job configuration — nested occurrences inside maps and lists
included — is a key of the variable schema's `properties`; on failure the
error carries the missing names. -/
theorem validate_base_job_template_correct (v vars : Json)
    (jckvs props : List (String × Json))
    (hjc : v.getOpt "job_configuration" = some (Json.obj jckvs))
    (hjct : (Json.obj jckvs).truthy = true)
    (hv : v.getOpt "variables" = some vars)
    (hvt : vars.truthy = true)
    (hprops : vars.getItem "properties" = .ok (Json.obj props)) :
    (validate_base_job_template v = .ok v ↔
      ∀ name ∈ extractTemplateVariables jckvs, name ∈ props.map Prod.fst) ∧
    (¬ (∀ name ∈ extractTemplateVariables jckvs, name ∈ props.map Prod.fst) →
      validate_base_job_template v = .error (.valueError (undeclaredMessage
        (missingVariables (extractTemplateVariables jckvs) (props.map Prod.fst))))) := by
  have key := validate_base_job_template_unfold v vars jckvs props hjc hjct hv hvt hprops
  cases hall : (extractTemplateVariables jckvs).all
      (fun n => decide (n ∈ props.map Prod.fst)) with
  | true =>
    rw [hall, if_pos rfl] at key
    have hforall : ∀ name ∈ extractTemplateVariables jckvs, name ∈ props.map Prod.fst := by
      simpa [List.all_eq_true] using hall
    exact ⟨⟨fun _ => hforall, fun _ => key⟩, fun h => absurd hforall h⟩
  | false =>
    rw [hall] at key
    simp only [Bool.false_eq_true, if_false] at key
    have hnforall : ¬ ∀ name ∈ extractTemplateVariables jckvs, name ∈ props.map Prod.fst := by
      intro hforall
      have : (extractTemplateVariables jckvs).all
          (fun n => decide (n ∈ props.map Prod.fst)) = true := by
        simpa [List.all_eq_true] using hforall
      rw [hall] at this
      exact Bool.false_ne_true this
    refine ⟨⟨fun h => ?_, fun h => absurd h hnforall⟩, fun _ => key⟩
    rw [key] at h
    exact absurd h (by simp)

/-- The job-configuration entries of the C1 witness template: placeholders
at the top level, inside a nested map, and inside a list. -/
def c1JobConfig : List (String × Json) :=
  [("cmd", Json.str "\x7b\x7b image \x7d\x7d run"),
   ("env", Json.obj [("inner", Json.str "\x7b\x7b tag \x7d\x7d")]),
   ("args", Json.arr [Json.str "\x7b\x7bimage\x7d\x7d"])]

/-- The `properties` entries of the C1 witness variable schema. -/
def c1Props : List (String × Json) :=
  [("image", Json.obj []), ("tag", Json.obj [])]

/-- The C1 witness base job template. -/
def c1Template : Json :=
  Json.obj [("job_configuration", Json.obj c1JobConfig),
            ("variables", Json.obj [("properties", Json.obj c1Props)])]

/-- Witness for C1: on the concrete nested template every extracted
placeholder is declared, so validation succeeds. -/
theorem validate_base_job_template_correct_witness :
    validate_base_job_template c1Template = .ok c1Template :=
  (validate_base_job_template_correct c1Template
      (Json.obj [("properties", Json.obj c1Props)]) c1JobConfig c1Props
      rfl rfl rfl rfl rfl).1.mpr (by decide)

/-! ## Claim theorems: the undeclared-variable error message -/

theorem charsPrefix_self_append (n rest : List Char) :
    charsPrefix n (n ++ rest) = true := by
  induction n with
  | nil => rfl
  | cons a as ih => simp [charsPrefix, ih]

theorem charsContain_of_self_append (n post : List Char) :
    charsContain n (n ++ post) = true := by
  cases hnp : n ++ post with
  | nil =>
    have hn : n = [] := (List.append_eq_nil.mp hnp).1
    subst hn
    simp [charsContain]
  | cons c cs =>
    rw [← hnp]
    cases n with
    | nil =>
      cases post with
      | nil => simp at hnp
      | cons d ds => simp [charsContain, charsPrefix]
    | cons a as =>
      have hpre : charsPrefix (a :: as) ((a :: as) ++ post) = true :=
        charsPrefix_self_append (a :: as) post
      simp [charsContain]
      exact Or.inl hpre

theorem charsContain_of_parts (pre n post : List Char) :
    charsContain n (pre ++ (n ++ post)) = true := by
  induction pre with
  | nil => simpa using charsContain_of_self_append n post
  | cons c cs ih => simp [charsContain, ih]

theorem mem_joinNames_data (l : List String) (name : String) (h : name ∈ l) :
    ∃ pre post, (joinNames l).data = pre ++ (name.data ++ post) := by
  induction l with
  | nil => cases h
  | cons x xs ih =>
    cases xs with
    | nil =>
      have hx : name = x := by simpa using h
      subst hx
      exact ⟨[], [], by simp [joinNames]⟩
    | cons y ys =>
      rcases List.mem_cons.mp h with h1 | h2
      · subst h1
        exact ⟨[], (" ," ++ joinNames (y :: ys)).data,
          by simp [joinNames, String.data_append, List.append_assoc]⟩
      · rcases ih h2 with ⟨pre, post, hp⟩
        exact ⟨(x ++ " ,").data ++ pre, post,
          by simp [joinNames, String.data_append, hp, List.append_assoc]⟩

theorem charsContain_append_left (n a b : List Char)
    (h : charsContain n b = true) : charsContain n (a ++ b) = true := by
  induction a with
  | nil => simpa using h
  | cons c cs ih => simp [charsContain, ih]

theorem mem_undeclaredMessage (l : List String) (name : String) (h : name ∈ l) :
    charsContain name.data (undeclaredMessage l).data = true := by
  rcases mem_joinNames_data l name h with ⟨pre, post, hp⟩
  have hdata : (undeclaredMessage l).data
      = "The variables specified in the job configuration template must be present as properties in the variables schema. Your job configuration uses the following undeclared variable(s): ".data
        ++ ((joinNames l).data ++ ".".data) := by
    rw [undeclaredMessage, String.data_append, String.data_append, List.append_assoc]
  rw [hdata, hp]
  apply charsContain_append_left
  rw [List.append_assoc, List.append_assoc]
  exact charsContain_of_parts pre name.data (post ++ ".".data)

/-- The C7 base job template: placeholders discovered in the order
`beta`, `alpha` (reverse-alphabetical), with none of them declared. -/
def c7Template : Json :=
  Json.obj
    [("job_configuration",
      Json.obj [("cmd", Json.str "\x7b\x7b beta \x7d\x7d and \x7b\x7b alpha \x7d\x7d")]),
     ("variables", Json.obj [("properties", Json.obj [])])]

set_option maxRecDepth 20000 in
/-- C7 counterexample: the source joins the missing-variable set with
`' ,'` without sorting — the error message produced for `c7Template` lists
`beta` before `alpha` and does not contain the sorted rendering
`alpha ,beta` at all, refuting "the error message includes the
missing-variable set sorted". -/
theorem undeclared_message_unsorted_cex :
    validate_base_job_template c7Template
      = .error (.valueError (undeclaredMessage ["beta", "alpha"])) ∧
    charsContain "beta ,alpha".data (undeclaredMessage ["beta", "alpha"]).data = true ∧
    charsContain "alpha ,beta".data (undeclaredMessage ["beta", "alpha"]).data = false :=
  ⟨rfl, rfl, rfl⟩

/-- C7 (amended): on failure the error message carries every missing
variable name, joined with `' ,'` in set-iteration order (modelled as
first-discovery order) — the code performs no sorting, so the message is
not the sorted rendering and, under Python's hash randomization of set
order, not guaranteed deterministic. -/
theorem undeclared_message_carries_missing (v vars : Json)
    (jckvs props : List (String × Json))
    (hjc : v.getOpt "job_configuration" = some (Json.obj jckvs))
    (hjct : (Json.obj jckvs).truthy = true)
    (hv : v.getOpt "variables" = some vars)
    (hvt : vars.truthy = true)
    (hprops : vars.getItem "properties" = .ok (Json.obj props))
    (hmiss : ¬ ∀ name ∈ extractTemplateVariables jckvs, name ∈ props.map Prod.fst) :
    validate_base_job_template v = .error (.valueError (undeclaredMessage
      (missingVariables (extractTemplateVariables jckvs) (props.map Prod.fst)))) ∧
    ∀ name ∈ missingVariables (extractTemplateVariables jckvs) (props.map Prod.fst),
      charsContain name.data (undeclaredMessage
        (missingVariables (extractTemplateVariables jckvs) (props.map Prod.fst))).data
        = true := by
  have key := validate_base_job_template_unfold v vars jckvs props hjc hjct hv hvt hprops
  have hall : (extractTemplateVariables jckvs).all
      (fun n => decide (n ∈ props.map Prod.fst)) = false := by
    cases h : (extractTemplateVariables jckvs).all
        (fun n => decide (n ∈ props.map Prod.fst)) with
    | false => rfl
    | true =>
      exfalso
      exact hmiss (by simpa [List.all_eq_true] using h)
  rw [hall] at key
  simp only [Bool.false_eq_true, if_false] at key
  exact ⟨key, fun name hmem => mem_undeclaredMessage _ name hmem⟩

/-- Witness for the amended C7: the concrete message for `c7Template`
contains each of the two missing names. -/
theorem undeclared_message_carries_missing_witness :
    validate_base_job_template c7Template
      = .error (.valueError (undeclaredMessage
          (missingVariables
            (extractTemplateVariables
              [("cmd", Json.str "\x7b\x7b beta \x7d\x7d and \x7b\x7b alpha \x7d\x7d")]) []))) ∧
    ∀ name ∈ missingVariables
        (extractTemplateVariables
          [("cmd", Json.str "\x7b\x7b beta \x7d\x7d and \x7b\x7b alpha \x7d\x7d")]) [],
      charsContain name.data (undeclaredMessage
        (missingVariables
          (extractTemplateVariables
            [("cmd", Json.str "\x7b\x7b beta \x7d\x7d and \x7b\x7b alpha \x7d\x7d")]) [])).data
        = true :=
  undeclared_message_carries_missing c7Template
    (Json.obj [("properties", Json.obj [])])
    [("cmd", Json.str "\x7b\x7b beta \x7d\x7d and \x7b\x7b alpha \x7d\x7d")] []
    rfl rfl rfl rfl rfl (by decide)

/-! ## Claim theorems: the required-with-default exemption -/

theorem jsonBeq_str_right (x : Json) (k : String) :
    jsonBeq x (Json.str k) = true ↔ x = Json.str k := by
  cases x <;> simp [jsonBeq]

theorem jsonBeq_str_left (k : String) (x : Json) :
    jsonBeq (Json.str k) x = true ↔ x = Json.str k := by
  cases x <;> simp [jsonBeq]
  exact eq_comm

theorem mem_of_mem_jsonErase (y : Json) (l : List Json) (x : Json)
    (h : x ∈ jsonErase y l) : x ∈ l := by
  induction l with
  | nil => cases h
  | cons z zs ih =>
    by_cases hz : jsonBeq z y = true
    · rw [jsonErase, if_pos hz] at h
      exact List.mem_cons_of_mem z h
    · rw [jsonErase, if_neg hz] at h
      rcases List.mem_cons.mp h with h1 | h2
      · exact h1 ▸ List.mem_cons_self z zs
      · exact List.mem_cons_of_mem z (ih h2)

theorem nodup_jsonErase (y : Json) (l : List Json) (h : l.Nodup) :
    (jsonErase y l).Nodup := by
  induction l with
  | nil => exact List.nodup_nil
  | cons z zs ih =>
    rcases List.nodup_cons.mp h with ⟨hz, hzs⟩
    by_cases hb : jsonBeq z y = true
    · rw [jsonErase, if_pos hb]; exact hzs
    · rw [jsonErase, if_neg hb]
      exact List.nodup_cons.mpr
        ⟨fun hm => hz (mem_of_mem_jsonErase y zs z hm), ih hzs⟩

theorem not_mem_jsonErase_str (k : String) (l : List Json) (h : l.Nodup) :
    Json.str k ∉ jsonErase (Json.str k) l := by
  induction l with
  | nil => intro hm; cases hm
  | cons z zs ih =>
    rcases List.nodup_cons.mp h with ⟨hz, hzs⟩
    by_cases hb : jsonBeq z (Json.str k) = true
    · rw [jsonErase, if_pos hb]
      have : z = Json.str k := (jsonBeq_str_right z k).mp hb
      exact this ▸ hz
    · rw [jsonErase, if_neg hb]
      intro hm
      rcases List.mem_cons.mp hm with h1 | h2
      · exact hb (h1 ▸ (jsonBeq_str_right (Json.str k) k).mpr rfl)
      · exact ih hzs h2

theorem adjustStep_arr (l : List Json) (k : String) (frag : Json) (out : Json)
    (h : adjustStep (Json.arr l) k frag = .ok out) :
    ∃ l2, out = Json.arr l2 ∧ (∀ x, x ∈ l2 → x ∈ l) ∧ (l.Nodup → l2.Nodup) := by
  unfold adjustStep at h
  cases hd : pyIn "default" frag with
  | error e => rw [hd] at h; simp [Bind.bind, Except.bind] at h
  | ok b =>
    rw [hd] at h
    simp only [Bind.bind, Except.bind] at h
    cases b with
    | false =>
      simp only [Bool.false_eq_true, if_false, pure, Except.pure, Except.ok.injEq] at h
      exact ⟨l, h.symm, fun x hx => hx, fun hn => hn⟩
    | true =>
      simp only [if_true, pyIn, Bind.bind, Except.bind] at h
      cases hany : l.any (jsonBeq (Json.str k)) with
      | true =>
        rw [hany] at h
        simp only [if_true, pure, Except.pure, Except.ok.injEq] at h
        exact ⟨jsonErase (Json.str k) l, h.symm,
          fun x hx => mem_of_mem_jsonErase (Json.str k) l x hx,
          fun hn => nodup_jsonErase (Json.str k) l hn⟩
      | false =>
        rw [hany] at h
        simp only [Bool.false_eq_true, if_false, pure, Except.pure, Except.ok.injEq] at h
        exact ⟨l, h.symm, fun x hx => hx, fun hn => hn⟩

theorem adjustLoop_arr (props : List (String × Json)) :
    ∀ (l : List Json) (out : Json), adjustLoop (Json.arr l) props = .ok out →
      ∃ l2, out = Json.arr l2 ∧ (∀ x, x ∈ l2 → x ∈ l) ∧ (l.Nodup → l2.Nodup) := by
  induction props with
  | nil =>
    intro l out h
    simp only [adjustLoop, pure, Except.pure, Except.ok.injEq] at h
    exact ⟨l, h.symm, fun x hx => hx, fun hn => hn⟩
  | cons p rest ih =>
    intro l out h
    obtain ⟨k, frag⟩ := p
    rw [adjustLoop] at h
    cases hstep : adjustStep (Json.arr l) k frag with
    | error e => rw [hstep] at h; simp [Bind.bind, Except.bind] at h
    | ok req2 =>
      rw [hstep] at h
      simp only [Bind.bind, Except.bind] at h
      obtain ⟨l2, rfl, hsub, hnd⟩ := adjustStep_arr l k frag req2 hstep
      obtain ⟨l3, rfl, hsub3, hnd3⟩ := ih l2 out h
      exact ⟨l3, rfl, fun x hx => hsub x (hsub3 x hx), fun h0 => hnd3 (hnd h0)⟩

theorem adjustLoop_removed (props : List (String × Json)) :
    ∀ (l : List Json) (out : Json) (k : String) (frag : Json),
      l.Nodup → adjustLoop (Json.arr l) props = .ok out → (k, frag) ∈ props →
      pyIn "default" frag = .ok true →
      ∃ l2, out = Json.arr l2 ∧ Json.str k ∉ l2 := by
  induction props with
  | nil => intro l out k frag _ _ hmem _; cases hmem
  | cons p rest ih =>
    intro l out k frag hnd h hmem hdef
    obtain ⟨k1, f1⟩ := p
    rw [adjustLoop] at h
    cases hstep : adjustStep (Json.arr l) k1 f1 with
    | error e => rw [hstep] at h; simp [Bind.bind, Except.bind] at h
    | ok req2 =>
      rw [hstep] at h
      simp only [Bind.bind, Except.bind] at h
      rcases List.mem_cons.mp hmem with heq | hrest
      · have hk : k = k1 := congrArg Prod.fst heq
        have hf : frag = f1 := congrArg Prod.snd heq
        subst hk; subst hf
        unfold adjustStep at hstep
        rw [hdef] at hstep
        simp only [Bind.bind, Except.bind, if_true, pyIn] at hstep
        cases hany : l.any (jsonBeq (Json.str k)) with
        | true =>
          rw [hany] at hstep
          simp only [if_true, pure, Except.pure, Except.ok.injEq] at hstep
          subst hstep
          obtain ⟨l3, rfl, hsub3, _⟩ := adjustLoop_arr rest _ out h
          exact ⟨l3, rfl, fun hm =>
            not_mem_jsonErase_str k l hnd (hsub3 (Json.str k) hm)⟩
        | false =>
          rw [hany] at hstep
          simp only [Bool.false_eq_true, if_false, pure, Except.pure, Except.ok.injEq] at hstep
          subst hstep
          obtain ⟨l3, rfl, hsub3, _⟩ := adjustLoop_arr rest _ out h
          refine ⟨l3, rfl, fun hm => ?_⟩
          have hkl : Json.str k ∈ l := hsub3 (Json.str k) hm
          have : jsonBeq (Json.str k) (Json.str k) = false := by
            rw [List.any_eq_false] at hany
            exact Bool.eq_false_iff.mpr (fun hc => hany (Json.str k) hkl hc)
          exact Bool.eq_false_iff.mp this ((jsonBeq_str_left k (Json.str k)).mpr rfl)
      · obtain ⟨l2, rfl, _, hnd2⟩ := adjustStep_arr l k1 f1 req2 hstep
        exact ih l2 out k frag (hnd2 hnd) h hrest hdef

/-- The variable schema of the C3 witness: one property `x`, required but
carrying a `default`. -/
def c3Template : Json :=
  Json.obj [("variables", Json.obj
    [("properties", Json.obj
      [("x", Json.obj [("type", Json.str "string"), ("default", Json.str "a")])]),
     ("required", Json.arr [Json.str "x"])])]

/-- C3: every property name listed in the (duplicate-free, as the JSON-Schema
metaschema requires) `required` list whose fragment carries a `default` key
is removed by the relaxation loop, hence exempt from the required check; in
particular validating empty overrides against
`\x7bproperties: \x7bx: \x7btype: string, default: a\x7d\x7d, required: [x]\x7d`
succeeds. -/
theorem override_required_default_exempt (reqList : List Json)
    (propkvs : List (String × Json)) (k : String) (frag : Json) (out : Json)
    (hnd : reqList.Nodup)
    (hloop : adjustLoop (Json.arr reqList) propkvs = .ok out)
    (hmem : (k, frag) ∈ propkvs)
    (hdef : pyIn "default" frag = .ok true) :
    (∃ outList, out = Json.arr outList ∧ Json.str k ∉ outList) ∧
    checkCreateResult (Json.obj []) c3Template = .ok () :=
  ⟨adjustLoop_removed propkvs reqList out k frag hnd hloop hmem hdef, rfl⟩

/-- Witness for C3: the loop erases `x` from `required`, leaving the empty
list, and the concrete override validation succeeds. -/
theorem override_required_default_exempt_witness :
    ((∃ outList, Json.arr [] = Json.arr outList ∧ Json.str "x" ∉ outList) ∧
     checkCreateResult (Json.obj []) c3Template = .ok ()) :=
  override_required_default_exempt [Json.str "x"]
    [("x", Json.obj [("type", Json.str "string"), ("default", Json.str "a")])]
    "x" (Json.obj [("type", Json.str "string"), ("default", Json.str "a")])
    (Json.arr [])
    (List.nodup_singleton _) rfl (List.mem_singleton.mpr rfl) rfl
